import Mathlib

/-!
Shallow embedding of the double-helix particle mapper of this repository.

The function `calculateHelixPosition` in `src/src/main.ts` maps a particle
index and geometric parameters to a 3D point on a double helix wrapped
around a torus, together with a strand id.  A second variant of the same
function (the unnamed source file holding the perfect-closure version)
special-cases the final particle of each strand.  Both are embedded below
over the real numbers; JavaScript number semantics are modelled exactly
(in particular the truncating remainder operator used for the wraparound).
-/

open Real

namespace DoubleHelix

/-- Output record of the mapper: a 3D coordinate and the strand id. -/
structure HelixPosition where
  x : ℝ
  y : ℝ
  z : ℝ
  helixIndex : ℕ

/-- JavaScript remainder by one, `t % 1.0`: the result keeps the sign of the
dividend, so it is `t` minus the truncation of `t` (floor for nonnegative
inputs, ceiling for negative inputs). -/
noncomputable def jsMod1 (t : ℝ) : ℝ :=
  if t < 0 then t - ⌈t⌉ else t - ⌊t⌋

/-- The wraparound of `main.ts`:
`t >= 1.0 ? (t % 1.0) : (t < 0 ? (t % 1.0 + 1.0) : t)`. -/
noncomputable def wrapT (t : ℝ) : ℝ :=
  if 1 ≤ t then jsMod1 t
  else if t < 0 then jsMod1 t + 1
  else t

/-- `helixIndex = i % 2`: the strand id of particle `i`. -/
def helixIndex (i : ℕ) : ℕ := i % 2

/-- `helixParticleIndex = Math.floor(i / 2)`: the rank of particle `i`
within its strand. -/
def helixParticleIndex (i : ℕ) : ℕ := i / 2

/-- `particlesPerHelix = particleCount / 2` (real division, as in the
JavaScript source). -/
noncomputable def particlesPerHelix (particleCount : ℕ) : ℝ :=
  (particleCount : ℝ) / 2

/-- The raw progress `t = helixParticleIndex / particlesPerHelix + timeOffset`
before wrapping. -/
noncomputable def progressT (i particleCount : ℕ) (timeOffset : ℝ) : ℝ :=
  (helixParticleIndex i : ℝ) / particlesPerHelix particleCount + timeOffset

/-- The wrapped progress used by `main.ts`. -/
noncomputable def wrappedT (i particleCount : ℕ) (timeOffset : ℝ) : ℝ :=
  wrapT (progressT i particleCount timeOffset)

/-- `majorRadius = helixHeight / (2 * Math.PI)`. -/
noncomputable def majorRadius (helixHeight : ℝ) : ℝ :=
  helixHeight / (2 * π)

/-- `majorAngle = wrappedT * Math.PI * 2`. -/
noncomputable def majorAngle (i particleCount : ℕ) (timeOffset : ℝ) : ℝ :=
  wrappedT i particleCount timeOffset * π * 2

/-- `helixAngle = wrappedT * turns * Math.PI * 2`. -/
noncomputable def helixAngle (i particleCount : ℕ) (turns timeOffset : ℝ) : ℝ :=
  wrappedT i particleCount timeOffset * turns * π * 2

/-- `phaseOffset = helixIndex * Math.PI`. -/
noncomputable def phaseOffset (i : ℕ) : ℝ :=
  (helixIndex i : ℝ) * π

/-- `minorX = Math.cos(helixAngle + phaseOffset) * helixRadius`, the local
radial offset in the spiral plane. -/
noncomputable def minorX (i particleCount : ℕ)
    (helixRadius turns timeOffset : ℝ) : ℝ :=
  Real.cos (helixAngle i particleCount turns timeOffset + phaseOffset i) * helixRadius

/-- `minorY = Math.sin(helixAngle + phaseOffset) * helixRadius`. -/
noncomputable def minorY (i particleCount : ℕ)
    (helixRadius turns timeOffset : ℝ) : ℝ :=
  Real.sin (helixAngle i particleCount turns timeOffset + phaseOffset i) * helixRadius

/-- The mapper of `src/src/main.ts`: `calculateHelixPosition`. -/
noncomputable def calculateHelixPosition (i particleCount : ℕ)
    (helixRadius helixHeight turns timeOffset : ℝ) : HelixPosition :=
  { x := (majorRadius helixHeight + minorX i particleCount helixRadius turns timeOffset)
           * Real.cos (majorAngle i particleCount timeOffset)
    y := minorY i particleCount helixRadius turns timeOffset
    z := (majorRadius helixHeight + minorX i particleCount helixRadius turns timeOffset)
           * Real.sin (majorAngle i particleCount timeOffset)
    helixIndex := helixIndex i }

/-- The progress computation of the perfect-closure variant: the last rank of
each strand is forced to progress 0, and the wrap is the plain JavaScript
remainder `(t + timeOffset) % 1.0` with no correction for negative values. -/
noncomputable def closureT (i particleCount : ℕ) (timeOffset : ℝ) : ℝ :=
  jsMod1 ((if (helixParticleIndex i : ℝ) = particlesPerHelix particleCount - 1
             then 0
             else (helixParticleIndex i : ℝ) / particlesPerHelix particleCount)
          + timeOffset)

/-- The mapper of the perfect-closure source variant. -/
noncomputable def calculateHelixPositionClosure (i particleCount : ℕ)
    (helixRadius helixHeight turns timeOffset : ℝ) : HelixPosition :=
  { x := (majorRadius helixHeight
            + Real.cos (closureT i particleCount timeOffset * turns * π * 2
                + phaseOffset i) * helixRadius)
           * Real.cos (closureT i particleCount timeOffset * π * 2)
    y := Real.sin (closureT i particleCount timeOffset * turns * π * 2
           + phaseOffset i) * helixRadius
    z := (majorRadius helixHeight
            + Real.cos (closureT i particleCount timeOffset * turns * π * 2
                + phaseOffset i) * helixRadius)
           * Real.sin (closureT i particleCount timeOffset * π * 2)
    helixIndex := helixIndex i }

/-! ### Helper lemmas -/

lemma jsMod1_of_nonneg_lt_one {t : ℝ} (h0 : 0 ≤ t) (h1 : t < 1) :
    jsMod1 t = t := by
  unfold jsMod1
  rw [if_neg (not_lt.mpr h0), Int.floor_eq_zero_iff.mpr ⟨h0, h1⟩]
  simp

lemma wrapT_of_nonneg_lt_one {t : ℝ} (h0 : 0 ≤ t) (h1 : t < 1) :
    wrapT t = t := by
  unfold wrapT
  rw [if_neg (not_le.mpr h1), if_neg (not_lt.mpr h0)]

lemma wrapT_zero : wrapT 0 = 0 :=
  wrapT_of_nonneg_lt_one le_rfl one_pos

lemma wrappedT_of_rank_zero (i particleCount : ℕ)
    (h : helixParticleIndex i = 0) :
    wrappedT i particleCount 0 = 0 := by
  unfold wrappedT progressT
  rw [h]
  simpa using wrapT_zero

lemma wrapT_eq_jsMod1_of_nonneg {t : ℝ} (h : 0 ≤ t) : wrapT t = jsMod1 t := by
  unfold wrapT
  rcases le_or_lt 1 t with h1 | h1
  · rw [if_pos h1]
  · rw [if_neg (not_le.mpr h1), if_neg (not_lt.mpr h), jsMod1_of_nonneg_lt_one h h1]

lemma sqrt_torus_offset (R r A θ : ℝ) (hr : 0 ≤ r) :
    Real.sqrt (((R + Real.cos θ * r) * Real.cos A - R * Real.cos A) ^ 2
        + (Real.sin θ * r) ^ 2
        + ((R + Real.cos θ * r) * Real.sin A - R * Real.sin A) ^ 2) = r := by
  have h1 := Real.sin_sq_add_cos_sq A
  have h2 := Real.sin_sq_add_cos_sq θ
  have key : ((R + Real.cos θ * r) * Real.cos A - R * Real.cos A) ^ 2
      + (Real.sin θ * r) ^ 2
      + ((R + Real.cos θ * r) * Real.sin A - R * Real.sin A) ^ 2 = r ^ 2 := by
    linear_combination (Real.cos θ ^ 2 * r ^ 2) * h1 + r ^ 2 * h2
  rw [key, Real.sqrt_sq hr]

/-! ### Claims -/

/-- C1: for every valid input (index below an even positive particle count,
positive minor radius, height and turns, arbitrary time offset), the output
of `calculateHelixPosition` lies at distance exactly `helixRadius` from the
local spiral axis point
`(majorRadius * cos majorAngle, 0, majorRadius * sin majorAngle)`. -/
theorem dist_from_axis_eq_minorRadius
    (i particleCount : ℕ) (helixRadius helixHeight turns timeOffset : ℝ)
    (hpc : 0 < particleCount) (hpce : particleCount % 2 = 0) (hi : i < particleCount)
    (hr : 0 < helixRadius) (hh : 0 < helixHeight) (htu : 0 < turns) :
    Real.sqrt
      (((calculateHelixPosition i particleCount helixRadius helixHeight turns timeOffset).x
          - majorRadius helixHeight * Real.cos (majorAngle i particleCount timeOffset)) ^ 2
        + (calculateHelixPosition i particleCount helixRadius helixHeight turns timeOffset).y ^ 2
        + ((calculateHelixPosition i particleCount helixRadius helixHeight turns timeOffset).z
            - majorRadius helixHeight * Real.sin (majorAngle i particleCount timeOffset)) ^ 2)
      = helixRadius :=
  sqrt_torus_offset (majorRadius helixHeight) helixRadius
    (majorAngle i particleCount timeOffset)
    (helixAngle i particleCount turns timeOffset + phaseOffset i) hr.le

/-- Witness for C1 at a concrete valid input. -/
theorem dist_from_axis_eq_minorRadius_witness :
    Real.sqrt
      (((calculateHelixPosition 0 2 1 1 1 0).x
          - majorRadius 1 * Real.cos (majorAngle 0 2 0)) ^ 2
        + (calculateHelixPosition 0 2 1 1 1 0).y ^ 2
        + ((calculateHelixPosition 0 2 1 1 1 0).z
            - majorRadius 1 * Real.sin (majorAngle 0 2 0)) ^ 2) = 1 :=
  dist_from_axis_eq_minorRadius 0 2 1 1 1 0 (by norm_num) (by norm_num)
    (by norm_num) (by norm_num) (by norm_num) (by norm_num)

/-- C8: the `y` coordinate is `sin (helixAngle + phaseOffset) * helixRadius`,
so it always lies in the closed interval from `-helixRadius` to
`helixRadius`. -/
theorem y_within_minorRadius (i particleCount : ℕ)
    (helixRadius helixHeight turns timeOffset : ℝ) (hr : 0 < helixRadius) :
    -helixRadius
        ≤ (calculateHelixPosition i particleCount helixRadius helixHeight turns timeOffset).y
      ∧ (calculateHelixPosition i particleCount helixRadius helixHeight turns timeOffset).y
        ≤ helixRadius := by
  have h1 := Real.neg_one_le_sin (helixAngle i particleCount turns timeOffset + phaseOffset i)
  have h2 := Real.sin_le_one (helixAngle i particleCount turns timeOffset + phaseOffset i)
  have hy : (calculateHelixPosition i particleCount helixRadius helixHeight turns timeOffset).y
      = Real.sin (helixAngle i particleCount turns timeOffset + phaseOffset i) * helixRadius :=
    rfl
  rw [hy]
  constructor <;> nlinarith

/-- Witness for C8 at a concrete valid input. -/
theorem y_within_minorRadius_witness :
    -1 ≤ (calculateHelixPosition 0 2 1 1 1 0).y
      ∧ (calculateHelixPosition 0 2 1 1 1 0).y ≤ 1 :=
  y_within_minorRadius 0 2 1 1 1 0 (by norm_num)

/-- C6: at equal rank and time offset the two strands (indices `2 * k` and
`2 * k + 1`) are diametrically opposed in the local spiral plane: the local
radial offset and the `y` coordinate of the odd strand are the exact
negations of those of the even strand. -/
theorem strands_diametrically_opposed (k particleCount : ℕ)
    (helixRadius helixHeight turns timeOffset : ℝ) :
    minorX (2 * k + 1) particleCount helixRadius turns timeOffset
        = -minorX (2 * k) particleCount helixRadius turns timeOffset
      ∧ (calculateHelixPosition (2 * k + 1) particleCount helixRadius helixHeight turns timeOffset).y
        = -(calculateHelixPosition (2 * k) particleCount helixRadius helixHeight turns timeOffset).y := by
  have hrank : helixParticleIndex (2 * k + 1) = helixParticleIndex (2 * k) := by
    unfold helixParticleIndex
    omega
  have hangle : helixAngle (2 * k + 1) particleCount turns timeOffset
      = helixAngle (2 * k) particleCount turns timeOffset := by
    unfold helixAngle wrappedT progressT
    rw [hrank]
  have h1 : helixIndex (2 * k + 1) = 1 := by
    unfold helixIndex
    omega
  have h0 : helixIndex (2 * k) = 0 := by
    unfold helixIndex
    omega
  have hp1 : phaseOffset (2 * k + 1) = π := by
    unfold phaseOffset
    rw [h1]
    norm_num
  have hp0 : phaseOffset (2 * k) = 0 := by
    unfold phaseOffset
    rw [h0]
    norm_num
  constructor
  · unfold minorX
    rw [hangle, hp1, hp0, Real.cos_add, Real.cos_pi, Real.sin_pi]
    ring
  · show minorY (2 * k + 1) particleCount helixRadius turns timeOffset
        = -minorY (2 * k) particleCount helixRadius turns timeOffset
    unfold minorY
    rw [hangle, hp1, hp0, Real.sin_add, Real.cos_pi, Real.sin_pi]
    ring

lemma calc_zero_eval (particleCount : ℕ) (r h turns : ℝ) :
    (calculateHelixPosition 0 particleCount r h turns 0).x = majorRadius h + r
      ∧ (calculateHelixPosition 0 particleCount r h turns 0).y = 0 := by
  have hw0 : wrappedT 0 particleCount 0 = 0 := wrappedT_of_rank_zero 0 particleCount rfl
  constructor
  · show (majorRadius h + minorX 0 particleCount r turns 0)
        * Real.cos (majorAngle 0 particleCount 0) = majorRadius h + r
    unfold minorX majorAngle helixAngle phaseOffset helixIndex
    rw [hw0]
    simp
  · show minorY 0 particleCount r turns 0 = 0
    unfold minorY helixAngle phaseOffset helixIndex
    rw [hw0]
    simp

lemma calc_one_eval (particleCount : ℕ) (r h turns : ℝ) :
    (calculateHelixPosition 1 particleCount r h turns 0).x = majorRadius h - r
      ∧ (calculateHelixPosition 1 particleCount r h turns 0).y = 0 := by
  have hw1 : wrappedT 1 particleCount 0 = 0 := wrappedT_of_rank_zero 1 particleCount rfl
  constructor
  · show (majorRadius h + minorX 1 particleCount r turns 0)
        * Real.cos (majorAngle 1 particleCount 0) = majorRadius h - r
    unfold minorX majorAngle helixAngle phaseOffset helixIndex
    rw [hw1]
    simp [Real.cos_pi]
    ring
  · show minorY 1 particleCount r turns 0 = 0
    unfold minorY helixAngle phaseOffset helixIndex
    rw [hw1]
    simp [Real.sin_pi]

/-- C3 counterexample: under the concrete scenario the `x` coordinate of
particle 1 is `majorRadius 6 - 0.8`, which is not within `1e-6` of the
claimed value `-(majorRadius 6 + 0.8)`; the two differ by `6 / π`. -/
theorem concrete_scenario_x1_counterexample :
    ¬ |(calculateHelixPosition 1 100 0.8 6 4 0).x - -(majorRadius 6 + 0.8)|
        ≤ 1 / 1000000 := by
  rw [(calc_one_eval 100 0.8 6 4).1, not_le]
  have hpi := Real.pi_pos
  have hpi2 := Real.pi_lt_d2
  have hsum : majorRadius 6 - 0.8 - -(majorRadius 6 + 0.8) = 6 / π := by
    unfold majorRadius
    ring
  rw [hsum, abs_of_pos (by positivity), lt_div_iff₀ hpi]
  nlinarith

/-- C3 amended: under the concrete scenario (`particleCount = 100`,
`minorRadius = 0.8`, `height = 6`, `turns = 4`, `timeOffset = 0`),
particle 0 has strand id 0, `x = majorRadius + 0.8` and `y = 0` exactly,
and particle 1 has strand id 1 and `x = majorRadius - 0.8` exactly (the
claimed `-(majorRadius + 0.8)` is wrong on the code). -/
theorem concrete_scenario_values :
    (calculateHelixPosition 0 100 0.8 6 4 0).helixIndex = 0
      ∧ (calculateHelixPosition 0 100 0.8 6 4 0).x = majorRadius 6 + 0.8
      ∧ (calculateHelixPosition 0 100 0.8 6 4 0).y = 0
      ∧ (calculateHelixPosition 1 100 0.8 6 4 0).helixIndex = 1
      ∧ (calculateHelixPosition 1 100 0.8 6 4 0).x = majorRadius 6 - 0.8 :=
  ⟨rfl, (calc_zero_eval 100 0.8 6 4).1, (calc_zero_eval 100 0.8 6 4).2, rfl,
    (calc_one_eval 100 0.8 6 4).1⟩

/-- C4 counterexample: under the concrete scenario the `x` coordinates of the
two strands at rank 0 sum to `6 / π`, which is not below the tolerance
`0.1` used by the repository test, so the strands are not phase-opposed in
`x` on the torus-wrapped code. -/
theorem strand_x_sum_counterexample :
    ¬ |(calculateHelixPosition 0 100 0.8 6 4 0).x
        + (calculateHelixPosition 1 100 0.8 6 4 0).x| < 0.1 := by
  rw [(calc_zero_eval 100 0.8 6 4).1, (calc_one_eval 100 0.8 6 4).1, not_lt]
  have hpi := Real.pi_pos
  have hpi2 := Real.pi_lt_d2
  have hsum : majorRadius 6 + 0.8 + (majorRadius 6 - 0.8) = 6 / π := by
    unfold majorRadius
    ring
  rw [hsum, abs_of_pos (by positivity), le_div_iff₀ hpi]
  nlinarith

/-- C4 amended: at `timeOffset = 0` and rank 0 the `y` coordinates of the two
strands agree exactly, while the `x` coordinates sum to `helixHeight / π`
(twice the major radius), not to zero. -/
theorem strand_pair_rank_zero (particleCount : ℕ)
    (helixRadius helixHeight turns : ℝ) :
    (calculateHelixPosition 0 particleCount helixRadius helixHeight turns 0).x
        + (calculateHelixPosition 1 particleCount helixRadius helixHeight turns 0).x
        = helixHeight / π
      ∧ (calculateHelixPosition 0 particleCount helixRadius helixHeight turns 0).y
        = (calculateHelixPosition 1 particleCount helixRadius helixHeight turns 0).y := by
  refine ⟨?_, ?_⟩
  · rw [(calc_zero_eval particleCount helixRadius helixHeight turns).1,
      (calc_one_eval particleCount helixRadius helixHeight turns).1]
    unfold majorRadius
    ring
  · rw [(calc_zero_eval particleCount helixRadius helixHeight turns).2,
      (calc_one_eval particleCount helixRadius helixHeight turns).2]

/-- C2: evaluation of the code at the failing input. At `i = 0`,
`particleCount = 100`, `timeOffset = -1` the raw progress is `-1` and the
wrap of `main.ts` computes `(-1 % 1) + 1 = 1`, so the wrapped progress is
exactly `1`, outside the half-open interval claimed by the spec and by the
comment in the source. -/
theorem wrap_escapes_unit_interval :
    wrappedT 0 100 (-1) = 1 ∧ ¬ wrappedT 0 100 (-1) < 1 := by
  have harg : progressT 0 100 (-1) = -1 := by
    unfold progressT helixParticleIndex particlesPerHelix
    norm_num
  have hceil : ⌈(-1 : ℝ)⌉ = -1 := by
    rw [show (-1 : ℝ) = ((-1 : ℤ) : ℝ) by norm_num, Int.ceil_intCast]
  have h : wrappedT 0 100 (-1) = 1 := by
    unfold wrappedT
    rw [harg]
    unfold wrapT jsMod1
    rw [if_neg (by norm_num), if_pos (by norm_num), if_pos (by norm_num), hceil]
    norm_num
  exact ⟨h, by rw [h]; exact lt_irrefl 1⟩

/-- C5: evaluation of the code at the failing input. With `particleCount = 2`,
`helixRadius = 1`, `helixHeight = 2 * π`, `turns = 1 / 2`, particle 0 lands
at `x = 0` for `timeOffset = -1` but at `x = 2` for `timeOffset = 0`, so the
map is not periodic with period 1 at this input: the broken wrap returns
progress `1` instead of `0` at a raw progress of `-1`. -/
theorem period_one_violation :
    (calculateHelixPosition 0 2 1 (2 * π) (1 / 2) (-1)).x = 0
      ∧ (calculateHelixPosition 0 2 1 (2 * π) (1 / 2) 0).x = 2 := by
  have harg : progressT 0 2 (-1) = -1 := by
    unfold progressT helixParticleIndex particlesPerHelix
    norm_num
  have hceil : ⌈(-1 : ℝ)⌉ = -1 := by
    rw [show (-1 : ℝ) = ((-1 : ℤ) : ℝ) by norm_num, Int.ceil_intCast]
  have hw : wrappedT 0 2 (-1) = 1 := by
    unfold wrappedT
    rw [harg]
    unfold wrapT jsMod1
    rw [if_neg (by norm_num), if_pos (by norm_num), if_pos (by norm_num), hceil]
    norm_num
  have hR : majorRadius (2 * π) = 1 := by
    unfold majorRadius
    rw [div_self (by positivity)]
  constructor
  · show (majorRadius (2 * π) + minorX 0 2 1 (1 / 2) (-1))
        * Real.cos (majorAngle 0 2 (-1)) = 0
    have hminor : minorX 0 2 1 (1 / 2) (-1) = -1 := by
      unfold minorX helixAngle phaseOffset helixIndex
      rw [hw]
      have hang : (1 : ℝ) * (1 / 2) * π * 2 + ((0 % 2 : ℕ) : ℝ) * π = π := by
        push_cast [Nat.zero_mod]
        ring
      rw [hang, Real.cos_pi]
      norm_num
    rw [hR, hminor]
    ring
  · show (majorRadius (2 * π) + minorX 0 2 1 (1 / 2) 0)
        * Real.cos (majorAngle 0 2 0) = 2
    have hw0 : wrappedT 0 2 0 = 0 := wrappedT_of_rank_zero 0 2 rfl
    have hminor : minorX 0 2 1 (1 / 2) 0 = 1 := by
      unfold minorX helixAngle phaseOffset helixIndex
      rw [hw0]
      norm_num
    have hmaj : majorAngle 0 2 0 = 0 := by
      unfold majorAngle
      rw [hw0]
      ring
    rw [hR, hminor, hmaj, Real.cos_zero]
    norm_num

lemma filter_even_image (m : ℕ) :
    (Finset.range (2 * m)).filter (fun i => i % 2 = 0)
      = (Finset.range m).image (fun k => 2 * k) := by
  ext j
  simp only [Finset.mem_filter, Finset.mem_range, Finset.mem_image]
  constructor
  · rintro ⟨h1, h2⟩
    exact ⟨j / 2, by omega, by omega⟩
  · rintro ⟨k, hk, rfl⟩
    omega

lemma filter_odd_image (m : ℕ) :
    (Finset.range (2 * m)).filter (fun i => i % 2 = 1)
      = (Finset.range m).image (fun k => 2 * k + 1) := by
  ext j
  simp only [Finset.mem_filter, Finset.mem_range, Finset.mem_image]
  constructor
  · rintro ⟨h1, h2⟩
    exact ⟨j / 2, by omega, by omega⟩
  · rintro ⟨k, hk, rfl⟩
    omega

lemma card_filter_mod_two (m : ℕ) :
    ((Finset.range (2 * m)).filter (fun i => i % 2 = 0)).card = m
      ∧ ((Finset.range (2 * m)).filter (fun i => i % 2 = 1)).card = m := by
  constructor
  · rw [filter_even_image,
      Finset.card_image_of_injective _ (fun a b h => by omega), Finset.card_range]
  · rw [filter_odd_image,
      Finset.card_image_of_injective _ (fun a b h => by omega), Finset.card_range]

/-- C7: the strand id returned by the code is `i % 2`; over an even positive
particle count exactly half the indices land on each strand; and each
even/odd pair `2 * k`, `2 * k + 1` has the same rank, hence the same wrapped
progress at time offset zero. -/
theorem strand_assignment_partition (particleCount : ℕ)
    (hpos : 0 < particleCount) (heven : particleCount % 2 = 0)
    (helixRadius helixHeight turns timeOffset : ℝ) :
    (∀ i : ℕ,
        (calculateHelixPosition i particleCount helixRadius helixHeight turns timeOffset).helixIndex
          = i % 2)
      ∧ ((Finset.range particleCount).filter
            (fun i =>
              (calculateHelixPosition i particleCount helixRadius helixHeight turns timeOffset).helixIndex
                = 0)).card
          = particleCount / 2
      ∧ ((Finset.range particleCount).filter
            (fun i =>
              (calculateHelixPosition i particleCount helixRadius helixHeight turns timeOffset).helixIndex
                = 1)).card
          = particleCount / 2
      ∧ ∀ k : ℕ, helixParticleIndex (2 * k) = helixParticleIndex (2 * k + 1)
          ∧ wrappedT (2 * k) particleCount 0 = wrappedT (2 * k + 1) particleCount 0 := by
  obtain ⟨m, rfl⟩ : ∃ m, particleCount = 2 * m := ⟨particleCount / 2, by omega⟩
  have hrk : ∀ k : ℕ, helixParticleIndex (2 * k) = helixParticleIndex (2 * k + 1) := by
    intro k
    unfold helixParticleIndex
    omega
  refine ⟨fun i => rfl, ?_, ?_, fun k => ⟨hrk k, ?_⟩⟩
  · have he : ((Finset.range (2 * m)).filter
        (fun i =>
          (calculateHelixPosition i (2 * m) helixRadius helixHeight turns timeOffset).helixIndex
            = 0))
        = (Finset.range (2 * m)).filter (fun i => i % 2 = 0) := rfl
    rw [he, (card_filter_mod_two m).1]
    omega
  · have ho : ((Finset.range (2 * m)).filter
        (fun i =>
          (calculateHelixPosition i (2 * m) helixRadius helixHeight turns timeOffset).helixIndex
            = 1))
        = (Finset.range (2 * m)).filter (fun i => i % 2 = 1) := rfl
    rw [ho, (card_filter_mod_two m).2]
    omega
  · unfold wrappedT progressT
    rw [hrk k]

/-- Witness for C7 at a concrete even particle count. -/
theorem strand_assignment_partition_witness :
    (∀ i : ℕ, (calculateHelixPosition i 2 1 1 1 0).helixIndex = i % 2)
      ∧ ((Finset.range 2).filter
            (fun i => (calculateHelixPosition i 2 1 1 1 0).helixIndex = 0)).card = 2 / 2
      ∧ ((Finset.range 2).filter
            (fun i => (calculateHelixPosition i 2 1 1 1 0).helixIndex = 1)).card = 2 / 2
      ∧ ∀ k : ℕ, helixParticleIndex (2 * k) = helixParticleIndex (2 * k + 1)
          ∧ wrappedT (2 * k) 2 0 = wrappedT (2 * k + 1) 2 0 :=
  strand_assignment_partition 2 (by norm_num) (by norm_num) 1 1 1 0

/-- C9: under the default parameters the first particle has `y = 0` (which is
non-positive) while the last particle, index 99 at rank 49 of strand 1, has
strictly positive `y`, so the two boundary particles differ in the sign of
their computed `y` coordinate. -/
theorem boundary_y_signs :
    (calculateHelixPosition 0 100 0.8 6 4 0).y = 0
      ∧ 0 < (calculateHelixPosition 99 100 0.8 6 4 0).y
      ∧ Real.sign ((calculateHelixPosition 0 100 0.8 6 4 0).y)
          ≠ Real.sign ((calculateHelixPosition 99 100 0.8 6 4 0).y) := by
  have h0 : (calculateHelixPosition 0 100 0.8 6 4 0).y = 0 :=
    (calc_zero_eval 100 0.8 6 4).2
  have harg : progressT 99 100 0 = 49 / 50 := by
    unfold progressT helixParticleIndex particlesPerHelix
    norm_num
  have hw : wrappedT 99 100 0 = 49 / 50 := by
    unfold wrappedT
    rw [harg]
    exact wrapT_of_nonneg_lt_one (by norm_num) (by norm_num)
  have h99 : 0 < (calculateHelixPosition 99 100 0.8 6 4 0).y := by
    show 0 < minorY 99 100 0.8 4 0
    unfold minorY helixAngle phaseOffset helixIndex
    rw [hw]
    have hang : (49 / 50 : ℝ) * 4 * π * 2 + ((99 % 2 : ℕ) : ℝ) * π
        = 21 * π / 25 + (4 : ℤ) * (2 * π) := by
      push_cast [show (99 % 2 : ℕ) = 1 from rfl]
      ring
    rw [hang, Real.sin_add_int_mul_two_pi]
    have hpos : 0 < Real.sin (21 * π / 25) := by
      apply Real.sin_pos_of_pos_of_lt_pi
      · positivity
      · nlinarith [Real.pi_pos]
    nlinarith
  refine ⟨h0, h99, ?_⟩
  rw [h0, Real.sign_zero, Real.sign_of_pos h99]
  norm_num

/-- C10 counterexample: at index 0 (rank 0, strictly below
`particlesPerHelix - 1`), particle count 4, `turns = 1 / 2` and
`timeOffset = -(1 / 4)`, the perfect-closure variant and the
modulo-wraparound variant disagree: their `y` coordinates are
`-(sqrt 2 / 2)` and `sqrt 2 / 2` respectively, because the closure variant
wraps a negative progress to a negative value while `main.ts` shifts it into
the positive range. -/
theorem closure_variant_counterexample :
    (helixParticleIndex 0 : ℝ) < particlesPerHelix 4 - 1
      ∧ (calculateHelixPositionClosure 0 4 1 1 (1 / 2) (-(1 / 4))).y
          ≠ (calculateHelixPosition 0 4 1 1 (1 / 2) (-(1 / 4))).y := by
  constructor
  · unfold helixParticleIndex particlesPerHelix
    norm_num
  · have hceil : ⌈(-(1 / 4) : ℝ)⌉ = 0 := by
      rw [Int.ceil_eq_iff]
      constructor <;> norm_num
    have hcl : closureT 0 4 (-(1 / 4)) = -(1 / 4) := by
      unfold closureT
      rw [if_neg (show ¬((helixParticleIndex 0 : ℕ) : ℝ) = particlesPerHelix 4 - 1 by
        unfold helixParticleIndex particlesPerHelix
        norm_num)]
      rw [show ((helixParticleIndex 0 : ℕ) : ℝ) / particlesPerHelix 4 + -(1 / 4)
          = -(1 / 4) by
        unfold helixParticleIndex particlesPerHelix
        norm_num]
      unfold jsMod1
      rw [if_pos (by norm_num), hceil]
      norm_num
    have harg : progressT 0 4 (-(1 / 4)) = -(1 / 4) := by
      unfold progressT helixParticleIndex particlesPerHelix
      norm_num
    have hwr : wrappedT 0 4 (-(1 / 4)) = 3 / 4 := by
      unfold wrappedT
      rw [harg]
      unfold wrapT jsMod1
      rw [if_neg (by norm_num), if_pos (by norm_num), if_pos (by norm_num), hceil]
      norm_num
    have hy1 : (calculateHelixPositionClosure 0 4 1 1 (1 / 2) (-(1 / 4))).y
        = -(Real.sqrt 2 / 2) := by
      show Real.sin (closureT 0 4 (-(1 / 4)) * (1 / 2) * π * 2 + phaseOffset 0) * 1
          = -(Real.sqrt 2 / 2)
      rw [hcl]
      have hang : (-(1 / 4) : ℝ) * (1 / 2) * π * 2 + phaseOffset 0 = -(π / 4) := by
        unfold phaseOffset helixIndex
        push_cast [Nat.zero_mod]
        ring
      rw [hang, Real.sin_neg, Real.sin_pi_div_four]
      ring
    have hy2 : (calculateHelixPosition 0 4 1 1 (1 / 2) (-(1 / 4))).y
        = Real.sqrt 2 / 2 := by
      show minorY 0 4 1 (1 / 2) (-(1 / 4)) = Real.sqrt 2 / 2
      unfold minorY helixAngle phaseOffset helixIndex
      rw [hwr]
      have hang : (3 / 4 : ℝ) * (1 / 2) * π * 2 + ((0 % 2 : ℕ) : ℝ) * π = π - π / 4 := by
        push_cast [Nat.zero_mod]
        ring
      rw [hang, Real.sin_pi_sub, Real.sin_pi_div_four]
      ring
    rw [hy1, hy2]
    have hs : 0 < Real.sqrt 2 := Real.sqrt_pos.mpr (by norm_num)
    intro hcontra
    linarith

/-- C10 amended: whenever the raw progress `rank / particlesPerHelix +
timeOffset` is nonnegative (in particular for every nonnegative time
offset), the two source variants return identical outputs at every index
whose rank is strictly below `particlesPerHelix - 1`; and at the final rank
the closure variant forces progress 0, so the last particle of each strand
coincides exactly with that strand's first particle at the same time
offset. -/
theorem closure_variant_agreement (i particleCount m : ℕ)
    (helixRadius helixHeight turns timeOffset : ℝ)
    (hpc : particleCount = 2 * m) (hm : 0 < m)
    (hrank : (helixParticleIndex i : ℝ) < particlesPerHelix particleCount - 1)
    (htime : 0 ≤ progressT i particleCount timeOffset) :
    calculateHelixPositionClosure i particleCount helixRadius helixHeight turns timeOffset
        = calculateHelixPosition i particleCount helixRadius helixHeight turns timeOffset
      ∧ ∀ s : ℕ, s < 2 →
          calculateHelixPositionClosure (2 * (m - 1) + s) particleCount helixRadius helixHeight turns timeOffset
            = calculateHelixPositionClosure s particleCount helixRadius helixHeight turns timeOffset := by
  constructor
  · have htime2 : 0 ≤ (helixParticleIndex i : ℝ) / particlesPerHelix particleCount
        + timeOffset := htime
    have hct : closureT i particleCount timeOffset = wrappedT i particleCount timeOffset := by
      unfold closureT wrappedT progressT
      rw [if_neg (ne_of_lt hrank)]
      exact (wrapT_eq_jsMod1_of_nonneg htime2).symm
    unfold calculateHelixPositionClosure calculateHelixPosition minorX minorY
      helixAngle majorAngle
    rw [hct]
  · intro s hs
    have hm1 : 1 ≤ m := hm
    have hpph : particlesPerHelix particleCount = (m : ℝ) := by
      unfold particlesPerHelix
      rw [hpc]
      push_cast
      ring
    have hrank1 : helixParticleIndex (2 * (m - 1) + s) = m - 1 := by
      unfold helixParticleIndex
      omega
    have hcondA : ((helixParticleIndex (2 * (m - 1) + s) : ℕ) : ℝ)
        = particlesPerHelix particleCount - 1 := by
      rw [hrank1, hpph, Nat.cast_sub hm1]
      norm_num
    have hrank0 : helixParticleIndex s = 0 := by
      unfold helixParticleIndex
      omega
    have hA : closureT (2 * (m - 1) + s) particleCount timeOffset
        = jsMod1 (0 + timeOffset) := by
      unfold closureT
      rw [if_pos hcondA]
    have hB : closureT s particleCount timeOffset = jsMod1 (0 + timeOffset) := by
      unfold closureT
      rw [hrank0]
      rcases eq_or_ne ((0 : ℕ) : ℝ) (particlesPerHelix particleCount - 1) with h | h
      · rw [if_pos h]
      · rw [if_neg h]
        norm_num
    have hidx : helixIndex (2 * (m - 1) + s) = helixIndex s := by
      unfold helixIndex
      omega
    unfold calculateHelixPositionClosure phaseOffset
    rw [hA, hB, hidx]

/-- Witness for C10 at a concrete valid input. -/
theorem closure_variant_agreement_witness :
    (calculateHelixPositionClosure 0 4 1 1 1 0 = calculateHelixPosition 0 4 1 1 1 0)
      ∧ ∀ s : ℕ, s < 2 →
          calculateHelixPositionClosure (2 * (2 - 1) + s) 4 1 1 1 0
            = calculateHelixPositionClosure s 4 1 1 1 0 :=
  closure_variant_agreement 0 4 2 1 1 1 0 (by norm_num) (by norm_num)
    (by unfold helixParticleIndex particlesPerHelix; norm_num)
    (by unfold progressT helixParticleIndex particlesPerHelix; norm_num)

end DoubleHelix
